import Mathlib

/-!
Shallow embedding of the mna/upstashdis repository: the Upstash Redis REST
client (package upstashdis) and the REST server dispatcher (package
restserver). Go strings are modelled as lists of characters, Go interface
values as the inductive GoVal, and the stdlib collaborators (JSON
encoding/decoding, the HTTP transport, the backing Redis connection) as
function parameters. A Go panic is modelled by an Option-valued function
returning none.
-/

set_option autoImplicit false

/-- Go strings, modelled as lists of characters. -/
abbrev Str := List Char

/-- Go strings.Split with a single-character separator (all separators used
by the repository are single characters). -/
def splitOnChar (sep : Char) : Str → List Str
  | [] => [[]]
  | c :: rest =>
    if c = sep then [] :: splitOnChar sep rest
    else
      match splitOnChar sep rest with
      | [] => [[c]]
      | h :: t => (c :: h) :: t

/-- Go strings.TrimSuffix(path, "/"): removes one trailing slash, if present. -/
def trimSuffixSlash (s : Str) : Str :=
  if s.getLast? = some '/' then s.dropLast else s

/-- Go strings.ToLower, restricted to the ASCII range used by the commands. -/
def toLowerStr (s : Str) : Str :=
  s.map Char.toLower

/-- Go interface values, covering the shapes the repository passes around:
JSON-decoded values, command arguments and backing-store replies. The arg
constructor models a value implementing the Argument interface, holding the
value its RedisArg method returns; other models any remaining Go value by
the string fmt.Sprint would render for it. -/
inductive GoVal where
  | str (s : Str)
  | bytes (b : Str)
  | int (n : Int)
  | bool (b : Bool)
  | null
  | arg (v : GoVal)
  | other (rendered : Str)
deriving DecidableEq

/-- Go fmt.Sprint of a single interface value, for the shapes in GoVal. -/
def GoVal.sprint : GoVal → Str
  | .str s => s
  | .bytes b => b
  | .int n => (toString n).toList
  | .bool b => if b then "true".toList else "false".toList
  | .null => "<nil>".toList
  | .arg v => v.sprint
  | .other rendered => rendered

/-- Go type assertion v.(string): some for an actual string, none (panic at
the assertion site) for every other dynamic type. -/
def GoVal.asString? : GoVal → Option Str
  | .str s => some s
  | _ => none

namespace upstashdis

/-- Result is the struct used to unmarshal raw results for a command
execution (client.go). The Error string is unmarshaled, while the successful
result is kept as a raw JSON message (none models a nil json.RawMessage). -/
structure Result where
  error : Str
  result : Option Str
deriving DecidableEq

/-- Error represents an error returned by Redis (client.go). -/
structure Error where
  Message : Str
  Kind : Str
  PipelineIndex : Int
deriving DecidableEq

/-- newError builds an Error from a message and pipeline index: the Kind
field is set to the part of the message before the first space, and only
when the message does contain a space (strings.Cut on a single space). -/
def newError (msg : Str) (ix : Int) : Error :=
  if ' ' ∈ msg then
    { Message := msg, Kind := msg.takeWhile (fun c => c ≠ ' '), PipelineIndex := ix }
  else
    { Message := msg, Kind := [], PipelineIndex := ix }

/-- writeArg encodes one command argument (client.go, adjusted from the
redigo helper): strings and byte slices pass as strings, integers stay
numeric, booleans become "1"/"0", nil becomes the empty string, an Argument
value is re-encoded one level deep only, and anything else falls back to
its fmt.Sprint rendering. -/
def writeArg : GoVal → Bool → GoVal
  | .str s, _ => .str s
  | .bytes b, _ => .str b
  | .int n, _ => .int n
  | .bool b, _ => .str (if b then ['1'] else ['0'])
  | .null, _ => .str []
  | .arg v, argumentTypeOK =>
    if argumentTypeOK then writeArg v false
    else .str (GoVal.sprint (.arg v))
  | .other rendered, _ => .str (GoVal.sprint (.other rendered))

/-- The client-side error outcomes: the fixed sentinel errors, the errors
wrapping a stdlib failure (marshal, network, unmarshal), the formatted
non-200 status error, and the typed Redis Error. -/
inductive CErr where
  | emptyCommand
  | noCommand
  | tooMany
  | marshal (msg : Str)
  | network (msg : Str)
  | httpStatus (code : Nat) (body : Str)
  | unmarshal (msg : Str)
  | red (e : Error)
deriving DecidableEq

/-- A Request accumulates the pending commands to execute (client.go). -/
structure Request where
  req : List (List GoVal)
deriving DecidableEq

/-- Send queues a new command: it fails on an empty command name, otherwise
appends the command name followed by the encoded arguments to the queue. -/
def Request.Send (r : Request) (cmd : Str) (args : List GoVal) : Except CErr Request :=
  if cmd = [] then .error .emptyCommand
  else .ok ⟨r.req ++ [GoVal.str cmd :: args.map (fun a => writeArg a true)]⟩

/-- An HTTP response as the client sees it: status code, status text and
body bytes. -/
structure HttpResp where
  code : Nat
  status : Str
  body : Str
deriving DecidableEq

/-- The non-200 branch of makeRequest: read at most 512 bytes of the body;
an empty body yields the formatted status error; otherwise probe the body
as a JSON Result and, when it decodes with a non-empty error field, build a
typed Error whose PipelineIndex is -1 for a pipeline call and 0 otherwise;
any other body yields the formatted status error. decR stands for the JSON
decoding of a Result value. -/
def handleNon200 (decR : Str → Option Result) (pipeline : Bool) (resp : HttpResp) : CErr :=
  let b := resp.body.take 512
  if b = [] then .httpStatus resp.code resp.status
  else
    match decR b with
    | some pld =>
      if pld.error ≠ [] then
        .red (newError pld.error (if pipeline then -1 else 0))
      else .httpStatus resp.code b
    | none => .httpStatus resp.code b

/-- makeRequest performs the HTTP round trip (client.go): tr models the
transport call (taking the pipeline flag and the queued batch), decR and
decRs model the JSON decoding of a single Result and of a Result slice. A
non-200 status goes through handleNon200; a 200 body is decoded as a Result
slice for a pipeline call and as a single Result (wrapped in a singleton
slice) otherwise. -/
def makeRequest (decR : Str → Option Result) (decRs : Str → Option (List Result))
    (tr : Bool → List (List GoVal) → Except Str HttpResp)
    (pipeline : Bool) (batch : List (List GoVal)) : Except CErr (List Result) :=
  match tr pipeline batch with
  | .error e => .error (.network e)
  | .ok resp =>
    if resp.code ≠ 200 then .error (handleNon200 decR pipeline resp)
    else if pipeline then
      match decRs resp.body with
      | none => .error (.unmarshal resp.body)
      | some rs => .ok rs
    else
      match decR resp.body with
      | none => .error (.unmarshal resp.body)
      | some r1 => .ok [r1]

/-- exec transmits the queued commands (client.go): an empty queue fails
with the no-command error; otherwise the queue is truncated to empty before
the marshal error is examined and before the transport call, a single
queued command is sent as a plain call and two or more as a pipeline call.
marshal models the JSON encoding step (none is success). -/
def Request.exec (marshal : List (List GoVal) → Option Str)
    (decR : Str → Option Result) (decRs : Str → Option (List Result))
    (tr : Bool → List (List GoVal) → Except Str HttpResp)
    (r : Request) : Request × Except CErr (List Result) :=
  match r.req with
  | [] => (r, .error .noCommand)
  | q =>
    let pipeline : Bool := decide (q.length ≠ 1)
    match marshal q with
    | some e => (⟨[]⟩, .error (.marshal e))
    | none => (⟨[]⟩, makeRequest decR decRs tr pipeline q)

/-- A destination value passed to Exec: either the nil ignore marker or a
non-nil pointer. -/
inductive Dst where
  | nil
  | ptr
deriving DecidableEq

/-- The distribution loop of Exec over the zipped replies and destinations
(client.go): a Failure reply while no first error is recorded yet records
the typed Error for its position and skips the entry; otherwise a non-nil
destination with a non-nil raw result is unmarshaled (um models
json.Unmarshal; a failed unmarshal aborts the loop with that error). The
returned list collects the (position, payload) pairs actually unmarshaled
into a destination. -/
def distLoop (um : Str → Except Str Unit) :
    List (Result × Dst) → Nat → Option Error → Except Str (Option Error) × List (Nat × Str)
  | [], _, firstErr => (.ok firstErr, [])
  | (r1, d) :: rest, i, firstErr =>
    if r1.error ≠ [] ∧ firstErr = none then
      distLoop um rest (i + 1) (some (newError r1.error i))
    else
      match d, r1.result with
      | .ptr, some payload =>
        match um payload with
        | .error e => (.error e, [])
        | .ok _ =>
          match distLoop um rest (i + 1) firstErr with
          | (out, ws) => (out, (i, payload) :: ws)
      | _, _ => distLoop um rest (i + 1) firstErr

/-- The reply-distribution phase of Exec (client.go): more destinations
than replies is the too-many-destinations error with nothing unmarshaled;
otherwise the loop runs over the first min(len dst, len res) positions (the
zip truncates exactly as the min computation in the source does), an
unmarshal failure becomes the returned error, and otherwise the first
recorded command failure (if any) is returned as a typed Error. -/
def execDistribute (um : Str → Except Str Unit) (res : List Result) (dst : List Dst) :
    Option CErr × List (Nat × Str) :=
  if dst.length > res.length then (some .tooMany, [])
  else
    match distLoop um (res.zip dst) 0 none with
    | (.error e, ws) => (some (.unmarshal e), ws)
    | (.ok firstErr, ws) => (firstErr.map .red, ws)

/-- Exec executes the queued commands and distributes the replies into the
destinations (client.go). Returns the consumed request, the error outcome
and the (position, payload) pairs unmarshaled into destinations. -/
def Request.Exec (um : Str → Except Str Unit)
    (marshal : List (List GoVal) → Option Str)
    (decR : Str → Option Result) (decRs : Str → Option (List Result))
    (tr : Bool → List (List GoVal) → Except Str HttpResp)
    (r : Request) (dst : List Dst) : Request × Option CErr × List (Nat × Str) :=
  match Request.exec marshal decR decRs tr r with
  | (r', .error e) => (r', some e, [])
  | (r', .ok res) => (r', execDistribute um res dst)

/-- ExecOne queues the given command, executes the whole batch and keeps
only the last reply (client.go): a Failure in that last reply becomes a
typed Error with PipelineIndex hard-coded to 0; on success a nil
destination ignores the result, otherwise the raw result is unmarshaled.
Returns none for the panic the source hits when the reply slice is empty. -/
def Request.ExecOne (um : Str → Except Str Unit)
    (marshal : List (List GoVal) → Option Str)
    (decR : Str → Option Result) (decRs : Str → Option (List Result))
    (tr : Bool → List (List GoVal) → Except Str HttpResp)
    (r : Request) (dst : Dst) (cmd : Str) (args : List GoVal) :
    Option (Request × Option CErr) :=
  match Request.Send r cmd args with
  | .error e => some (r, some e)
  | .ok r1 =>
    match Request.exec marshal decR decRs tr r1 with
    | (r2, .error e) => some (r2, some e)
    | (r2, .ok res) =>
      match res.getLast? with
      | none => none
      | some last =>
        if last.error ≠ [] then some (r2, some (.red (newError last.error 0)))
        else if dst = .nil then some (r2, none)
        else
          match um (last.result.getD []) with
          | .error e => some (r2, some (.unmarshal e))
          | .ok _ => some (r2, none)

/-- ExecRaw executes the queued commands and returns the raw reply slice,
promoting no individual command error (client.go). -/
def Request.ExecRaw (marshal : List (List GoVal) → Option Str)
    (decR : Str → Option Result) (decRs : Str → Option (List Result))
    (tr : Bool → List (List GoVal) → Except Str HttpResp)
    (r : Request) : Request × Except CErr (List Result) :=
  Request.exec marshal decR decRs tr r

end upstashdis

namespace restserver

/-- The username/password pair a rest token maps to (restserver.go). -/
structure Auth where
  Username : Str
  Password : Str
deriving DecidableEq

/-- The mutable part of the Server that the dispatcher touches: the rest
token map, modelled as an association list whose most recent insertion
shadows older entries, plus the configured admin token. -/
structure Server where
  APIToken : Str
  restTokens : List (Str × Auth)
deriving DecidableEq

/-- The backing Redis connection (the Conn interface of restserver.go),
modelled as a deterministic state machine over an arbitrary state type:
Do takes the current state, the command name and the arguments, and yields
the next state together with the reply or the error. -/
structure Conn (σ : Type) where
  doCmd : σ → Str → List GoVal → σ × Except Str GoVal

/-- The JSON envelope a single command produces: errorResult or
successResult (restserver.go). -/
inductive Envelope where
  | err (msg : Str)
  | ok (v : GoVal)
deriving DecidableEq

/-- The plain-command arm of execCmd: run the command on the connection and
wrap the outcome as a 400 error envelope or a 200 success envelope. -/
def doConn {σ : Type} (st : Server) (conn : Conn σ) (cs : σ) (cmd : Str) (args : List GoVal) :
    Server × σ × Envelope × Nat :=
  match conn.doCmd cs cmd args with
  | (cs', .error e) => (st, cs', .err e, 400)
  | (cs', .ok v) => (st, cs', .ok v, 200)

/-- execACLRestToken (restserver.go): demands exactly three raw arguments
(RESTTOKEN, username, password); verifies the credential with an AUTH
command (dispatched through execCmd in the source, which for the name AUTH
reduces to a direct connection call); on verification failure returns that
failure unchanged; then asks the store for a fresh secret via ACL GENPASS,
asserts the reply to be a string (none models the panic when it is not),
stores the secret in the token map and returns it as the success result. -/
def execACLRestToken {σ : Type} (st : Server) (conn : Conn σ) (cs : σ) (args : List GoVal) :
    Option (Server × σ × Envelope × Nat) :=
  if args.length ≠ 3 then
    some (st, cs, .err "ERR invalid syntax. Usage: ACL RESTTOKEN username password".toList, 400)
  else
    let user := GoVal.sprint (args.getD 1 .null)
    let pwd := GoVal.sprint (args.getD 2 .null)
    match conn.doCmd cs "AUTH".toList [.str user, .str pwd] with
    | (cs', .error e) => some (st, cs', .err e, 400)
    | (cs', .ok _) =>
      match conn.doCmd cs' "ACL".toList [.str "GENPASS".toList] with
      | (cs'', .error e) => some (st, cs'', .err e, 400)
      | (cs'', .ok v) =>
        match v.asString? with
        | none => none
        | some token =>
          some ({ st with restTokens := (token, ⟨user, pwd⟩) :: st.restTokens }, cs'', .ok v, 200)

/-- execCmd (restserver.go): a command whose lower-cased name is acl and
whose first argument renders (case-insensitively) as resttoken goes to the
credential issuer; every other command goes straight to the connection. -/
def execCmd {σ : Type} (st : Server) (conn : Conn σ) (cs : σ) (cmd : Str) (args : List GoVal) :
    Option (Server × σ × Envelope × Nat) :=
  if toLowerStr cmd = "acl".toList ∧ 0 < args.length ∧
      toLowerStr (GoVal.sprint (args.getD 0 .null)) = "resttoken".toList then
    execACLRestToken st conn cs args
  else
    some (doConn st conn cs cmd args)

/-- The pipeline loop of ServeHTTP: each inner command runs in order, an
empty inner array contributes the empty-pipeline-command error envelope
without touching the connection, every other inner array runs through
execCmd with its status code discarded, and the envelopes are collected
positionally. none propagates a panic from execCmd. -/
def pipelineRun {σ : Type} (conn : Conn σ) :
    Server → σ → List (List GoVal) → Option (Server × σ × List Envelope)
  | st, cs, [] => some (st, cs, [])
  | st, cs, c :: rest =>
    match c with
    | [] =>
      match pipelineRun conn st cs rest with
      | none => none
      | some (st', cs', envs) =>
        some (st', cs', .err "ERR empty pipeline command".toList :: envs)
    | c0 :: cargs =>
      match execCmd st conn cs (GoVal.sprint c0) cargs with
      | none => none
      | some (st1, cs1, env, _code) =>
        match pipelineRun conn st1 cs1 rest with
        | none => none
        | some (st', cs', envs) => some (st', cs', env :: envs)

/-- The three arms of the path switch in ServeHTTP. -/
inductive Branch where
  | root
  | pipe
  | other
deriving DecidableEq

/-- The switch scrutinee of ServeHTTP: the request path with one trailing
slash trimmed selects the root arm (empty), the pipeline arm, or the
catch-all arm. -/
def branchOf (path : Str) : Branch :=
  let t := trimSuffixSlash path
  if t = [] then .root
  else if t = "/pipeline".toList then .pipe
  else .other

/-- Go strings.SplitN(s, "=", 2): at most two pieces, split at the first
equals sign. -/
def splitN2Eq (s : Str) : List Str :=
  match s.span (fun c => c ≠ '=') with
  | (before, []) => [before]
  | (before, _ :: after) => [before, after]

/-- The query-string contribution of the catch-all arm: each ampersand-
separated part contributes its key and, when present, its value. -/
def queryArgs (query : Str) : List Str :=
  ((splitOnChar '&' query).map splitN2Eq).flatten

/-- The argument segments of the catch-all arm of ServeHTTP: the path split
on slashes with the leading empty segment removed, then the raw body as one
extra segment when non-empty, then the query-string pairs. Note the split
runs on the original path, not the trailing-slash-trimmed switch scrutinee. -/
def otherSegments (path body query : Str) : List Str :=
  let segments := (splitOnChar '/' path).tail
  let segments := if body ≠ [] then segments ++ [body] else segments
  if query ≠ [] then segments ++ queryArgs query else segments

/-- A dispatcher response body: a single envelope or the positional batch
of a pipeline reply. -/
inductive Payload where
  | single (e : Envelope)
  | batch (envs : List Envelope)
deriving DecidableEq

/-- The path switch of ServeHTTP, after authentication, method filtering
and body reading (restserver.go lines 98-174): the root arm decodes the
body as one command array (decA models that JSON decoding), the pipeline
arm decodes it as an array of arrays (decP) and runs the loop, and the
catch-all arm assembles the command from path, body and query. Returns the
updated server and connection states with the HTTP status and payload;
none models a panic. -/
def serveCommand {σ : Type} (decA : Str → Option (List GoVal))
    (decP : Str → Option (List (List GoVal)))
    (st : Server) (conn : Conn σ) (cs : σ) (path body query : Str) :
    Option (Server × σ × Nat × Payload) :=
  match branchOf path with
  | .root =>
    match decA body with
    | none => some (st, cs, 400, .single (.err "ERR failed to parse command".toList))
    | some [] => some (st, cs, 400, .single (.err "ERR empty command".toList))
    | some (a0 :: rest) =>
      match execCmd st conn cs (GoVal.sprint a0) rest with
      | none => none
      | some (st', cs', env, code) => some (st', cs', code, .single env)
  | .pipe =>
    match decP body with
    | none => some (st, cs, 400, .single (.err "ERR failed to parse pipeline request".toList))
    | some [] => some (st, cs, 400, .single (.err "ERR empty pipeline request".toList))
    | some cmds =>
      match pipelineRun conn st cs cmds with
      | none => none
      | some (st', cs', envs) => some (st', cs', 200, .batch envs)
  | .other =>
    match otherSegments path body query with
    | [] => none
    | c :: rest =>
      match execCmd st conn cs c (rest.map GoVal.str) with
      | none => none
      | some (st', cs', env, code) => some (st', cs', code, .single env)

end restserver

/-! Helper lemmas shared by the claim theorems. -/

theorem takeWhile_space_split (msg : Str) (h : ' ' ∈ msg) :
    ∃ rest, msg = msg.takeWhile (fun c => c ≠ ' ') ++ ' ' :: rest := by
  induction msg with
  | nil => cases h
  | cons c cs ih =>
    by_cases hc : c = ' '
    · subst hc
      exact ⟨cs, by simp [List.takeWhile_cons]⟩
    · have hmem : ' ' ∈ cs := by
        rcases List.mem_cons.mp h with h1 | h1
        · exact absurd h1.symm hc
        · exact h1
      obtain ⟨rest, hr⟩ := ih hmem
      refine ⟨rest, ?_⟩
      rw [List.takeWhile_cons, if_pos (by simp [hc]), List.cons_append]
      exact congrArg (c :: ·) hr

theorem space_not_mem_takeWhile (msg : Str) :
    ' ' ∉ msg.takeWhile (fun c => c ≠ ' ') := by
  intro h
  have := List.mem_takeWhile_imp h
  simp at this

/-- C6 counterexample: the message WRONGPASS is non-empty (it consists of
one whitespace-delimited token), yet the Error built from it carries an
empty Kind, because the source only sets Kind when the message contains a
space. -/
theorem newError_single_token_counterexample :
    (upstashdis.newError "WRONGPASS".toList 0).Kind = [] ∧
      ("WRONGPASS".toList : Str) ≠ [] := by
  constructor
  · rfl
  · decide

/-- C6 (amended): every Error built from a Failure message carries the full
message; when the message contains a space, Kind is the space-free prefix
of the message before its first space (the first space-delimited token);
when the message contains no space — even a non-empty single-token
message — Kind is empty. -/
theorem newError_kind_spec (msg : Str) (ix : Int) :
    (upstashdis.newError msg ix).Message = msg ∧
    (upstashdis.newError msg ix).PipelineIndex = ix ∧
    (' ' ∈ msg →
      (∃ rest, msg = (upstashdis.newError msg ix).Kind ++ ' ' :: rest) ∧
        ' ' ∉ (upstashdis.newError msg ix).Kind) ∧
    (' ' ∉ msg → (upstashdis.newError msg ix).Kind = []) := by
  by_cases h : ' ' ∈ msg
  · have hk : (upstashdis.newError msg ix).Kind = msg.takeWhile (fun c => c ≠ ' ') := by
      unfold upstashdis.newError
      rw [if_pos h]
    have hm : (upstashdis.newError msg ix).Message = msg := by
      unfold upstashdis.newError
      rw [if_pos h]
    have hp : (upstashdis.newError msg ix).PipelineIndex = ix := by
      unfold upstashdis.newError
      rw [if_pos h]
    refine ⟨hm, hp, fun _ => ⟨?_, ?_⟩, fun hn => absurd h hn⟩
    · rw [hk]
      exact takeWhile_space_split msg h
    · rw [hk]
      exact space_not_mem_takeWhile msg
  · have hk : (upstashdis.newError msg ix).Kind = [] := by
      unfold upstashdis.newError
      rw [if_neg h]
    have hm : (upstashdis.newError msg ix).Message = msg := by
      unfold upstashdis.newError
      rw [if_neg h]
    have hp : (upstashdis.newError msg ix).PipelineIndex = ix := by
      unfold upstashdis.newError
      rw [if_neg h]
    exact ⟨hm, hp, fun hc => absurd hc h, fun _ => hk⟩

/-- C6 witness: instantiation of the amended Kind specification on the
message ERR bad. -/
theorem newError_kind_spec_witness :
    (upstashdis.newError "ERR bad".toList 2).Message = "ERR bad".toList ∧
    (upstashdis.newError "ERR bad".toList 2).PipelineIndex = 2 ∧
    (' ' ∈ "ERR bad".toList →
      (∃ rest, "ERR bad".toList =
        (upstashdis.newError "ERR bad".toList 2).Kind ++ ' ' :: rest) ∧
        ' ' ∉ (upstashdis.newError "ERR bad".toList 2).Kind) ∧
    (' ' ∉ "ERR bad".toList → (upstashdis.newError "ERR bad".toList 2).Kind = []) :=
  newError_kind_spec "ERR bad".toList 2

/-- C5 counterexample: a non-200 status at the single-command endpoint
(pipeline = false) whose body decodes into an envelope with a non-empty
error field produces a typed Error whose PipelineIndex is 0, not -1 as the
claim states for the single-command endpoint. -/
theorem makeRequest_single_non200_counterexample :
    upstashdis.makeRequest (fun _ => some ⟨"ERR oops".toList, none⟩) (fun _ => none)
      (fun _ _ => .ok ⟨500, "500 Internal Server Error".toList, "x".toList⟩)
      false [[GoVal.str "PING".toList]] =
      .error (.red ⟨"ERR oops".toList, "ERR".toList, 0⟩) ∧ (0 : Int) ≠ -1 := by
  constructor
  · rfl
  · decide

/-- C5 (amended): whenever the transport call returns a non-200 status
whose (truncated) body decodes as a JSON error envelope with a non-empty
error field, the client surfaces a typed Error carrying that message, with
PipelineIndex -1 for the pipeline sub-resource and 0 for the
single-command endpoint. -/
theorem makeRequest_non200_typed (decR : Str → Option upstashdis.Result)
    (decRs : Str → Option (List upstashdis.Result))
    (tr : Bool → List (List GoVal) → Except Str upstashdis.HttpResp)
    (pipeline : Bool) (batch : List (List GoVal)) (resp : upstashdis.HttpResp)
    (pld : upstashdis.Result)
    (htr : tr pipeline batch = .ok resp)
    (hcode : resp.code ≠ 200)
    (hbody : resp.body.take 512 ≠ [])
    (hdec : decR (resp.body.take 512) = some pld)
    (herr : pld.error ≠ []) :
    upstashdis.makeRequest decR decRs tr pipeline batch =
      .error (.red (upstashdis.newError pld.error (if pipeline then -1 else 0))) := by
  unfold upstashdis.makeRequest upstashdis.handleNon200
  rw [htr]
  simp only [hbody, hdec, ite_false, ite_true, if_neg, if_pos]
  rw [if_pos hcode, if_pos herr]

/-- C5 witness: instantiation of the non-200 envelope theorem on a concrete
pipeline response. -/
theorem makeRequest_non200_typed_witness :
    ((fun (_ : Bool) (_ : List (List GoVal)) =>
        (.ok ⟨500, "500".toList, "x".toList⟩ : Except Str upstashdis.HttpResp)) true
      [[GoVal.str "PING".toList]] = .ok ⟨500, "500".toList, "x".toList⟩) ∧
    (500 : Nat) ≠ 200 ∧
    ("x".toList : Str).take 512 ≠ [] ∧
    ((fun (_ : Str) => some (⟨"ERR oops".toList, none⟩ : upstashdis.Result))
        (("x".toList : Str).take 512) = some ⟨"ERR oops".toList, none⟩) ∧
    ("ERR oops".toList : Str) ≠ [] ∧
    upstashdis.makeRequest (fun _ => some ⟨"ERR oops".toList, none⟩) (fun _ => none)
      (fun _ _ => .ok ⟨500, "500".toList, "x".toList⟩) true [[GoVal.str "PING".toList]] =
      .error (.red (upstashdis.newError "ERR oops".toList (if true then -1 else 0))) :=
  ⟨rfl, by decide, by decide, rfl, by decide,
    makeRequest_non200_typed (fun _ => some ⟨"ERR oops".toList, none⟩) (fun _ => none)
      (fun _ _ => .ok ⟨500, "500".toList, "x".toList⟩) true [[GoVal.str "PING".toList]]
      ⟨500, "500".toList, "x".toList⟩ ⟨"ERR oops".toList, none⟩ rfl (by decide) (by decide)
      rfl (by decide)⟩

/-- C10: when the credential has been verified but the backing connection
answers the ACL GENPASS password-generation command with any non-string
value, the token issuer hits a failed type assertion and panics (modelled
by none) instead of producing an error envelope. -/
theorem execACLRestToken_nonstring_genpass_panics {σ : Type} (st : restserver.Server)
    (conn : restserver.Conn σ) (cs : σ) (args : List GoVal) (cs' cs'' : σ) (rAuth v : GoVal)
    (hlen : args.length = 3)
    (hauth : conn.doCmd cs "AUTH".toList
      [.str (GoVal.sprint (args.getD 1 .null)), .str (GoVal.sprint (args.getD 2 .null))] =
      (cs', .ok rAuth))
    (hgen : conn.doCmd cs' "ACL".toList [.str "GENPASS".toList] = (cs'', .ok v))
    (hv : v.asString? = none) :
    restserver.execACLRestToken st conn cs args = none := by
  simp only [restserver.execACLRestToken, hlen, hauth, hgen, hv, ne_eq, not_true_eq_false,
    not_false_eq_true, ite_false, ite_true, if_neg, if_pos]

/-- C10 witness: a connection that accepts AUTH but answers ACL GENPASS
with a byte slice makes the issuer panic. -/
theorem execACLRestToken_nonstring_genpass_panics_witness :
    (([GoVal.str "RESTTOKEN".toList, GoVal.str "u".toList, GoVal.str "p".toList] :
        List GoVal).length = 3) ∧
    (restserver.Conn.mk (fun (s : Nat) cmd _ =>
        if cmd = "AUTH".toList then (s + 1, .ok (GoVal.str "OK".toList))
        else (s + 1, .ok (GoVal.bytes "tok".toList)))).doCmd 0 "AUTH".toList
      [.str (GoVal.sprint (([GoVal.str "RESTTOKEN".toList, GoVal.str "u".toList,
        GoVal.str "p".toList] : List GoVal).getD 1 .null)),
       .str (GoVal.sprint (([GoVal.str "RESTTOKEN".toList, GoVal.str "u".toList,
        GoVal.str "p".toList] : List GoVal).getD 2 .null))] =
      (1, .ok (GoVal.str "OK".toList)) ∧
    (restserver.Conn.mk (fun (s : Nat) cmd _ =>
        if cmd = "AUTH".toList then (s + 1, .ok (GoVal.str "OK".toList))
        else (s + 1, .ok (GoVal.bytes "tok".toList)))).doCmd 1 "ACL".toList
      [.str "GENPASS".toList] = (2, .ok (GoVal.bytes "tok".toList)) ∧
    (GoVal.bytes "tok".toList).asString? = none ∧
    restserver.execACLRestToken ⟨"adm".toList, []⟩
      (restserver.Conn.mk (fun (s : Nat) cmd _ =>
        if cmd = "AUTH".toList then (s + 1, .ok (GoVal.str "OK".toList))
        else (s + 1, .ok (GoVal.bytes "tok".toList)))) 0
      [GoVal.str "RESTTOKEN".toList, GoVal.str "u".toList, GoVal.str "p".toList] = none :=
  ⟨rfl, rfl, rfl, rfl,
    execACLRestToken_nonstring_genpass_panics ⟨"adm".toList, []⟩
      (restserver.Conn.mk (fun (s : Nat) cmd _ =>
        if cmd = "AUTH".toList then (s + 1, .ok (GoVal.str "OK".toList))
        else (s + 1, .ok (GoVal.bytes "tok".toList)))) 0
      [GoVal.str "RESTTOKEN".toList, GoVal.str "u".toList, GoVal.str "p".toList]
      1 2 (GoVal.str "OK".toList) (GoVal.bytes "tok".toList)
      rfl rfl rfl rfl⟩

/-- C8: a command the dispatcher recognizes as ACL RESTTOKEN
(case-insensitive) with an argument count other than RESTTOKEN plus two
replies 400 invalid-syntax leaving the token store unchanged; a failed
credential verification is passed through with its status and body and
leaves the store unchanged; a failed password generation likewise leaves
the store unchanged; and on successful verification the generated string
secret is stored mapped to the (username, password) pair and returned as
the successful result. -/
theorem aclRestToken_contract {σ : Type} (st : restserver.Server) (conn : restserver.Conn σ)
    (cs : σ) (cmd : Str) (args : List GoVal)
    (hacl : toLowerStr cmd = "acl".toList)
    (hlen0 : 0 < args.length)
    (hrt : toLowerStr (GoVal.sprint (args.getD 0 .null)) = "resttoken".toList) :
    (args.length ≠ 3 →
      restserver.execCmd st conn cs cmd args =
        some (st, cs,
          .err "ERR invalid syntax. Usage: ACL RESTTOKEN username password".toList, 400)) ∧
    (∀ csA e, args.length = 3 →
      conn.doCmd cs "AUTH".toList
          [.str (GoVal.sprint (args.getD 1 .null)), .str (GoVal.sprint (args.getD 2 .null))] =
        (csA, .error e) →
      restserver.execCmd st conn cs cmd args = some (st, csA, .err e, 400)) ∧
    (∀ csA rA csG e, args.length = 3 →
      conn.doCmd cs "AUTH".toList
          [.str (GoVal.sprint (args.getD 1 .null)), .str (GoVal.sprint (args.getD 2 .null))] =
        (csA, .ok rA) →
      conn.doCmd csA "ACL".toList [.str "GENPASS".toList] = (csG, .error e) →
      restserver.execCmd st conn cs cmd args = some (st, csG, .err e, 400)) ∧
    (∀ csA rA csG tok, args.length = 3 →
      conn.doCmd cs "AUTH".toList
          [.str (GoVal.sprint (args.getD 1 .null)), .str (GoVal.sprint (args.getD 2 .null))] =
        (csA, .ok rA) →
      conn.doCmd csA "ACL".toList [.str "GENPASS".toList] = (csG, .ok (.str tok)) →
      restserver.execCmd st conn cs cmd args =
        some ({ st with restTokens :=
            (tok, ⟨GoVal.sprint (args.getD 1 .null), GoVal.sprint (args.getD 2 .null)⟩) ::
              st.restTokens }, csG, .ok (.str tok), 200)) := by
  have hsel : restserver.execCmd st conn cs cmd args =
      restserver.execACLRestToken st conn cs args := by
    unfold restserver.execCmd
    rw [if_pos ⟨hacl, hlen0, hrt⟩]
  refine ⟨?_, ?_, ?_, ?_⟩
  · intro hne
    rw [hsel]
    unfold restserver.execACLRestToken
    rw [if_pos hne]
  · intro csA e h3 hAuth
    rw [hsel]
    unfold restserver.execACLRestToken
    rw [if_neg (by rw [h3]; exact fun h => h rfl)]
    simp only [hAuth]
  · intro csA rA csG e h3 hAuth hGen
    rw [hsel]
    unfold restserver.execACLRestToken
    rw [if_neg (by rw [h3]; exact fun h => h rfl)]
    simp only [hAuth, hGen]
  · intro csA rA csG tok h3 hAuth hGen
    rw [hsel]
    unfold restserver.execACLRestToken
    rw [if_neg (by rw [h3]; exact fun h => h rfl)]
    simp only [hAuth, hGen, GoVal.asString?]

/-- C8 witness: the contract applied to a concrete connection that rejects
the password bad, accepts the password pwd and generates the token tok. -/
theorem aclRestToken_contract_witness :
    toLowerStr "ACL".toList = "acl".toList ∧
    0 < ([GoVal.str "RESTTOKEN".toList, GoVal.str "u".toList, GoVal.str "pwd".toList] :
      List GoVal).length ∧
    toLowerStr (GoVal.sprint (([GoVal.str "RESTTOKEN".toList, GoVal.str "u".toList,
      GoVal.str "pwd".toList] : List GoVal).getD 0 .null)) = "resttoken".toList ∧
    (([GoVal.str "RESTTOKEN".toList, GoVal.str "u".toList, GoVal.str "pwd".toList] :
        List GoVal).length ≠ 3 →
      restserver.execCmd ⟨"adm".toList, []⟩
        (restserver.Conn.mk (fun (s : Nat) cmd _ =>
          if cmd = "AUTH".toList then (s + 1, .ok (GoVal.str "OK".toList))
          else (s + 1, .ok (GoVal.str "tok".toList)))) 0 "ACL".toList
        [GoVal.str "RESTTOKEN".toList, GoVal.str "u".toList, GoVal.str "pwd".toList] =
        some (⟨"adm".toList, []⟩, 0,
          .err "ERR invalid syntax. Usage: ACL RESTTOKEN username password".toList, 400)) ∧
    (∀ csA rA csG tok,
      ([GoVal.str "RESTTOKEN".toList, GoVal.str "u".toList, GoVal.str "pwd".toList] :
        List GoVal).length = 3 →
      (restserver.Conn.mk (fun (s : Nat) cmd _ =>
          if cmd = "AUTH".toList then (s + 1, .ok (GoVal.str "OK".toList))
          else (s + 1, .ok (GoVal.str "tok".toList)))).doCmd 0 "AUTH".toList
        [.str (GoVal.sprint (([GoVal.str "RESTTOKEN".toList, GoVal.str "u".toList,
            GoVal.str "pwd".toList] : List GoVal).getD 1 .null)),
         .str (GoVal.sprint (([GoVal.str "RESTTOKEN".toList, GoVal.str "u".toList,
            GoVal.str "pwd".toList] : List GoVal).getD 2 .null))] = (csA, .ok rA) →
      (restserver.Conn.mk (fun (s : Nat) cmd _ =>
          if cmd = "AUTH".toList then (s + 1, .ok (GoVal.str "OK".toList))
          else (s + 1, .ok (GoVal.str "tok".toList)))).doCmd csA "ACL".toList
        [.str "GENPASS".toList] = (csG, .ok (.str tok)) →
      restserver.execCmd ⟨"adm".toList, []⟩
        (restserver.Conn.mk (fun (s : Nat) cmd _ =>
          if cmd = "AUTH".toList then (s + 1, .ok (GoVal.str "OK".toList))
          else (s + 1, .ok (GoVal.str "tok".toList)))) 0 "ACL".toList
        [GoVal.str "RESTTOKEN".toList, GoVal.str "u".toList, GoVal.str "pwd".toList] =
        some ({ APIToken := "adm".toList, restTokens := [(tok,
            ⟨GoVal.sprint (([GoVal.str "RESTTOKEN".toList, GoVal.str "u".toList,
              GoVal.str "pwd".toList] : List GoVal).getD 1 .null),
             GoVal.sprint (([GoVal.str "RESTTOKEN".toList, GoVal.str "u".toList,
              GoVal.str "pwd".toList] : List GoVal).getD 2 .null)⟩)] },
          csG, .ok (.str tok), 200)) :=
  have h := aclRestToken_contract ⟨"adm".toList, []⟩
    (restserver.Conn.mk (fun (s : Nat) cmd _ =>
      if cmd = "AUTH".toList then (s + 1, .ok (GoVal.str "OK".toList))
      else (s + 1, .ok (GoVal.str "tok".toList)))) 0 "ACL".toList
    [GoVal.str "RESTTOKEN".toList, GoVal.str "u".toList, GoVal.str "pwd".toList]
    (by decide) (by decide) (by decide)
  ⟨by decide, by decide, by decide, h.1, h.2.2.2⟩

/-- C4: ExecOne appends its command (with a non-empty name) as the last
entry of the transmitted batch after the previously queued commands; when
the round trip succeeds and the last reply is a Failure, it returns a
typed Error whose PipelineIndex is 0, regardless of how many commands were
queued before. -/
theorem execOne_pipeline_index_zero (um : Str → Except Str Unit)
    (marshal : List (List GoVal) → Option Str)
    (decR : Str → Option upstashdis.Result) (decRs : Str → Option (List upstashdis.Result))
    (tr : Bool → List (List GoVal) → Except Str upstashdis.HttpResp)
    (r : upstashdis.Request) (dst : upstashdis.Dst) (cmd : Str) (args : List GoVal)
    (res : List upstashdis.Result) (last : upstashdis.Result)
    (hcmd : cmd ≠ [])
    (hexec : upstashdis.Request.exec marshal decR decRs tr
        ⟨r.req ++ [GoVal.str cmd :: args.map (fun a => upstashdis.writeArg a true)]⟩ =
      (⟨[]⟩, .ok res))
    (hlast : res.getLast? = some last)
    (hfail : last.error ≠ []) :
    upstashdis.Request.ExecOne um marshal decR decRs tr r dst cmd args =
      some (⟨[]⟩, some (.red (upstashdis.newError last.error 0))) := by
  unfold upstashdis.Request.ExecOne upstashdis.Request.Send
  rw [if_neg hcmd]
  simp only [hexec, hlast]
  rw [if_pos hfail]

/-- C4 witness: one previously queued command, a transport reply of two
results whose last is a Failure; ExecOne reports PipelineIndex 0. -/
theorem execOne_pipeline_index_zero_witness :
    ("PING".toList : Str) ≠ [] ∧
    upstashdis.Request.exec (fun _ => none)
        (fun _ => none) (fun _ => some [⟨[], some "1".toList⟩, ⟨"ERR boom".toList, none⟩])
        (fun _ _ => .ok ⟨200, [], "b".toList⟩)
        ⟨(⟨[[GoVal.str "SET".toList]]⟩ : upstashdis.Request).req ++
          [GoVal.str "PING".toList :: ([] : List GoVal).map
            (fun a => upstashdis.writeArg a true)]⟩ =
      (⟨[]⟩, .ok [⟨[], some "1".toList⟩, ⟨"ERR boom".toList, none⟩]) ∧
    ([(⟨[], some "1".toList⟩ : upstashdis.Result), ⟨"ERR boom".toList, none⟩].getLast? =
      some ⟨"ERR boom".toList, none⟩) ∧
    ("ERR boom".toList : Str) ≠ [] ∧
    upstashdis.Request.ExecOne (fun _ => .ok ()) (fun _ => none)
        (fun _ => none) (fun _ => some [⟨[], some "1".toList⟩, ⟨"ERR boom".toList, none⟩])
        (fun _ _ => .ok ⟨200, [], "b".toList⟩)
        ⟨[[GoVal.str "SET".toList]]⟩ .nil "PING".toList [] =
      some (⟨[]⟩, some (.red (upstashdis.newError "ERR boom".toList 0))) :=
  ⟨by decide, rfl, by decide, by decide,
    execOne_pipeline_index_zero (fun _ => .ok ()) (fun _ => none)
      (fun _ => none) (fun _ => some [⟨[], some "1".toList⟩, ⟨"ERR boom".toList, none⟩])
      (fun _ _ => .ok ⟨200, [], "b".toList⟩)
      ⟨[[GoVal.str "SET".toList]]⟩ .nil "PING".toList []
      [⟨[], some "1".toList⟩, ⟨"ERR boom".toList, none⟩] ⟨"ERR boom".toList, none⟩
      (by decide) rfl (by decide) (by decide)⟩

theorem exec_consumes_queue (marshal : List (List GoVal) → Option Str)
    (decR : Str → Option upstashdis.Result) (decRs : Str → Option (List upstashdis.Result))
    (tr : Bool → List (List GoVal) → Except Str upstashdis.HttpResp)
    (r : upstashdis.Request) (hq : r.req ≠ []) :
    (upstashdis.Request.exec marshal decR decRs tr r).1.req = [] := by
  obtain ⟨l⟩ := r
  cases l with
  | nil => exact absurd rfl hq
  | cons q0 qs =>
    unfold upstashdis.Request.exec
    cases hm : marshal (q0 :: qs) with
    | none => simp only [hm]
    | some e => simp only [hm]

theorem Exec_fst_eq (um : Str → Except Str Unit) (marshal : List (List GoVal) → Option Str)
    (decR : Str → Option upstashdis.Result) (decRs : Str → Option (List upstashdis.Result))
    (tr : Bool → List (List GoVal) → Except Str upstashdis.HttpResp)
    (r : upstashdis.Request) (dst : List upstashdis.Dst) :
    (upstashdis.Request.Exec um marshal decR decRs tr r dst).1 =
      (upstashdis.Request.exec marshal decR decRs tr r).1 := by
  unfold upstashdis.Request.Exec
  rcases hx : upstashdis.Request.exec marshal decR decRs tr r with ⟨r', exc⟩
  cases exc with
  | error e => rfl
  | ok res => rfl

theorem zip_take_length {α β : Type} (l1 : List α) (l2 : List β) :
    l1.zip l2 = (l1.take l2.length).zip l2 := by
  induction l1 generalizing l2 with
  | nil => simp
  | cons a t1 ih =>
    cases l2 with
    | nil => simp
    | cons b t2 =>
      simp only [List.length_cons, List.take_succ_cons, List.zip_cons_cons]
      exact congrArg ((a, b) :: ·) (ih t2)

theorem distLoop_cons (um : Str → Except Str Unit) (r1 : upstashdis.Result)
    (d : upstashdis.Dst) (rest : List (upstashdis.Result × upstashdis.Dst)) (i : Nat)
    (fe : Option upstashdis.Error) :
    upstashdis.distLoop um ((r1, d) :: rest) i fe =
      if r1.error ≠ [] ∧ fe = none then
        upstashdis.distLoop um rest (i + 1) (some (upstashdis.newError r1.error i))
      else
        match d, r1.result with
        | .ptr, some payload =>
          match um payload with
          | .error e => (.error e, [])
          | .ok _ =>
            match upstashdis.distLoop um rest (i + 1) fe with
            | (out, ws) => (out, (i, payload) :: ws)
        | _, _ => upstashdis.distLoop um rest (i + 1) fe := rfl

theorem distLoop_writes_lt (um : Str → Except Str Unit)
    (l : List (upstashdis.Result × upstashdis.Dst)) :
    ∀ (i : Nat) (fe : Option upstashdis.Error) (j : Nat) (p : Str),
      (j, p) ∈ (upstashdis.distLoop um l i fe).2 → j < i + l.length := by
  induction l with
  | nil =>
    intro i fe j p h
    simp [upstashdis.distLoop] at h
  | cons hd rest ih =>
    intro i fe j p h
    rcases hd with ⟨r1, d⟩
    rw [distLoop_cons] at h
    by_cases hc : r1.error ≠ [] ∧ fe = none
    · rw [if_pos hc] at h
      have h2 := ih (i + 1) (some (upstashdis.newError r1.error i)) j p h
      simp only [List.length_cons]
      omega
    · rw [if_neg hc] at h
      cases d with
      | nil =>
        dsimp only at h
        have h2 := ih (i + 1) fe j p h
        simp only [List.length_cons]
        omega
      | ptr =>
        rcases hr : r1.result with _ | payload
        · rw [hr] at h
          dsimp only at h
          have h2 := ih (i + 1) fe j p h
          simp only [List.length_cons]
          omega
        · rw [hr] at h
          dsimp only at h
          rcases hum : um payload with e | u
          · rw [hum] at h
            dsimp only at h
            exact absurd h (List.not_mem_nil _)
          · rw [hum] at h
            rcases hdl : upstashdis.distLoop um rest (i + 1) fe with ⟨out, ws⟩
            rw [hdl] at h
            dsimp only at h
            rcases List.mem_cons.mp h with h1 | h1
            · injection h1 with hj hp
              subst hj
              simp only [List.length_cons]
              omega
            · have h2 := ih (i + 1) fe j p (by rw [hdl]; exact h1)
              simp only [List.length_cons]
              omega

/-- The positions the distribution loop unmarshals when no entry is skipped
as the first Failure: every entry with a non-nil destination and a non-nil
raw result, paired with its payload. Specification device for the loop. -/
def allWrites : List (upstashdis.Result × upstashdis.Dst) → Nat → List (Nat × Str)
  | [], _ => []
  | (r1, d) :: rest, i =>
    match d, r1.result with
    | .ptr, some payload => (i, payload) :: allWrites rest (i + 1)
    | _, _ => allWrites rest (i + 1)

theorem allWrites_cons (r1 : upstashdis.Result) (d : upstashdis.Dst)
    (rest : List (upstashdis.Result × upstashdis.Dst)) (i : Nat) :
    allWrites ((r1, d) :: rest) i =
      match d, r1.result with
      | .ptr, some payload => (i, payload) :: allWrites rest (i + 1)
      | _, _ => allWrites rest (i + 1) := rfl

theorem distLoop_some_fe (um : Str → Except Str Unit) (hum : ∀ s, um s = .ok ()) :
    ∀ (l : List (upstashdis.Result × upstashdis.Dst)) (i : Nat) (e0 : upstashdis.Error),
      upstashdis.distLoop um l i (some e0) = (.ok (some e0), allWrites l i) := by
  intro l
  induction l with
  | nil => intro i e0; rfl
  | cons hd rest ih =>
    intro i e0
    rcases hd with ⟨r1, d⟩
    rw [distLoop_cons, allWrites_cons, if_neg (by simp)]
    cases d with
    | nil =>
      dsimp only
      exact ih (i + 1) e0
    | ptr =>
      rcases hr : r1.result with _ | payload
      · dsimp only
        exact ih (i + 1) e0
      · dsimp only
        rw [hum payload]
        dsimp only
        rw [ih (i + 1) e0]

theorem allWrites_mem (rest0 : List (upstashdis.Result × upstashdis.Dst)) :
    ∀ (i j : Nat), j < rest0.length →
      (rest0.getD j (⟨[], none⟩, .nil)).2 = .ptr →
      ∀ p, (rest0.getD j (⟨[], none⟩, .nil)).1.result = some p →
      (i + j, p) ∈ allWrites rest0 i := by
  induction rest0 with
  | nil =>
    intro i j hj
    exact absurd hj (Nat.not_lt_zero j)
  | cons hd rest ih =>
    intro i j hj hdp p hp
    rcases hd with ⟨r1, d⟩
    rw [allWrites_cons]
    cases j with
    | zero =>
      rw [List.getD_cons_zero] at hdp hp
      dsimp only at hdp hp
      subst hdp
      rw [hp]
      dsimp only
      simp
    | succ j' =>
      rw [List.getD_cons_succ] at hdp hp
      have hm := ih (i + 1) j' (by simpa using hj) hdp p hp
      have hix : i + (j' + 1) = i + 1 + j' := by omega
      rw [hix]
      cases d with
      | nil => dsimp only; exact hm
      | ptr =>
        rcases hr : r1.result with _ | payload
        · dsimp only
          exact hm
        · dsimp only
          exact List.mem_cons_of_mem _ hm

theorem zip_getD {α β : Type} (a : α) (b : β) :
    ∀ (l1 : List α) (l2 : List β) (j : Nat), j < l1.length → j < l2.length →
      (l1.zip l2).getD j (a, b) = (l1.getD j a, l2.getD j b) := by
  intro l1
  induction l1 with
  | nil =>
    intro l2 j hj
    exact absurd hj (Nat.not_lt_zero j)
  | cons x t1 ih =>
    intro l2 j hj1 hj2
    cases l2 with
    | nil => exact absurd hj2 (Nat.not_lt_zero j)
    | cons y t2 =>
      rw [List.zip_cons_cons]
      cases j with
      | zero => simp
      | succ j' =>
        simp only [List.getD_cons_succ]
        exact ih t2 j' (by simpa using hj1) (by simpa using hj2)

theorem distLoop_first_error (um : Str → Except Str Unit) (hum : ∀ s, um s = .ok ()) :
    ∀ (l : List (upstashdis.Result × upstashdis.Dst)) (i k : Nat),
      k < l.length →
      (l.getD k (⟨[], none⟩, .nil)).1.error ≠ [] →
      (∀ j, j < k → (l.getD j (⟨[], none⟩, .nil)).1.error = []) →
      (upstashdis.distLoop um l i none).1 =
        .ok (some (upstashdis.newError (l.getD k (⟨[], none⟩, .nil)).1.error (i + k))) ∧
      (∀ j p, j < l.length → j ≠ k →
        (l.getD j (⟨[], none⟩, .nil)).1.error = [] →
        (l.getD j (⟨[], none⟩, .nil)).2 = .ptr →
        (l.getD j (⟨[], none⟩, .nil)).1.result = some p →
        (i + j, p) ∈ (upstashdis.distLoop um l i none).2) := by
  intro l
  induction l with
  | nil =>
    intro i k hk
    exact absurd hk (Nat.not_lt_zero k)
  | cons hd rest ih =>
    intro i k hk hfail hfirst
    rcases hd with ⟨r1, d⟩
    cases k with
    | zero =>
      have hf : r1.error ≠ [] := by simpa using hfail
      have hcond : r1.error ≠ [] ∧ (none : Option upstashdis.Error) = none := ⟨hf, rfl⟩
      have hrun : upstashdis.distLoop um ((r1, d) :: rest) i none =
          (.ok (some (upstashdis.newError r1.error i)), allWrites rest (i + 1)) := by
        rw [distLoop_cons, if_pos hcond, distLoop_some_fe um hum]
      constructor
      · rw [hrun]
        simp
      · intro j p hj hjk he hdp hp
        rw [hrun]
        cases j with
        | zero => exact absurd rfl hjk
        | succ j' =>
          rw [List.getD_cons_succ] at hdp hp
          have hm := allWrites_mem rest (i + 1) j' (by simpa using hj) hdp p hp
          have hix : i + (j' + 1) = i + 1 + j' := by omega
          rw [hix]
          exact hm
    | succ k' =>
      have hr1 : r1.error = [] := by simpa using hfirst 0 (Nat.succ_pos k')
      have hcond : ¬(r1.error ≠ [] ∧ (none : Option upstashdis.Error) = none) := by
        simp [hr1]
      have irec := ih (i + 1) k' (by simpa using hk) (by simpa using hfail)
        (fun j hj => by simpa using hfirst (j + 1) (by omega))
      have hixZ : ((i : Int) + ((k' + 1 : Nat) : Int)) =
          (((i + 1 : Nat) : Int) + (k' : Int)) := by
        push_cast
        ring
      cases d with
      | nil =>
        have hrun : upstashdis.distLoop um ((r1, .nil) :: rest) i none =
            upstashdis.distLoop um rest (i + 1) none := by
          rw [distLoop_cons, if_neg hcond]
        constructor
        · rw [hrun, List.getD_cons_succ, hixZ]
          exact irec.1
        · intro j p hj hjk he hdp hp
          cases j with
          | zero =>
            rw [List.getD_cons_zero] at hdp
            exact absurd hdp (by simp)
          | succ j' =>
            rw [List.getD_cons_succ] at he hdp hp
            rw [hrun]
            have hm := irec.2 j' p (by simpa using hj) (by omega) he hdp hp
            have hjx : i + (j' + 1) = i + 1 + j' := by omega
            rw [hjx]
            exact hm
      | ptr =>
        rcases hres : r1.result with _ | payload
        · have hrun : upstashdis.distLoop um ((r1, .ptr) :: rest) i none =
              upstashdis.distLoop um rest (i + 1) none := by
            rw [distLoop_cons, if_neg hcond, hres]
          constructor
          · rw [hrun, List.getD_cons_succ, hixZ]
            exact irec.1
          · intro j p hj hjk he hdp hp
            cases j with
            | zero =>
              rw [List.getD_cons_zero] at hp
              dsimp only at hp
              rw [hres] at hp
              cases hp
            | succ j' =>
              rw [List.getD_cons_succ] at he hdp hp
              rw [hrun]
              have hm := irec.2 j' p (by simpa using hj) (by omega) he hdp hp
              have hjx : i + (j' + 1) = i + 1 + j' := by omega
              rw [hjx]
              exact hm
        · rcases hrec : upstashdis.distLoop um rest (i + 1) none with ⟨out, ws⟩
          have hrun : upstashdis.distLoop um ((r1, .ptr) :: rest) i none =
              (out, (i, payload) :: ws) := by
            rw [distLoop_cons, if_neg hcond, hres]
            dsimp only
            rw [hum payload]
            dsimp only
            rw [hrec]
          constructor
          · rw [hrun, List.getD_cons_succ, hixZ]
            have h1 := irec.1
            rw [hrec] at h1
            exact h1
          · intro j p hj hjk he hdp hp
            rw [hrun]
            cases j with
            | zero =>
              rw [List.getD_cons_zero] at hp
              dsimp only at hp
              rw [hres] at hp
              injection hp with hpv
              subst hpv
              simp
            | succ j' =>
              rw [List.getD_cons_succ] at he hdp hp
              have hm := irec.2 j' p (by simpa using hj) (by omega) he hdp hp
              rw [hrec] at hm
              have hjx : i + (j' + 1) = i + 1 + j' := by omega
              rw [hjx]
              exact List.mem_cons_of_mem _ hm

/-- C2 counterexample: the transport round trip succeeds with two replies
whose second is a Failure, but only one destination is supplied; the
Failure sits in the silently discarded tail, so Exec returns no error at
all — no typed Error with PipelineIndex 1 is constructed or returned. -/
theorem exec_trailing_failure_counterexample :
    upstashdis.Request.Exec (fun _ => .ok ()) (fun _ => none) (fun _ => none)
        (fun _ => some [⟨[], some "1".toList⟩, ⟨"ERR x".toList, none⟩])
        (fun _ _ => .ok ⟨200, [], "b".toList⟩)
        ⟨[[GoVal.str "A".toList], [GoVal.str "B".toList]]⟩ [.ptr] =
      (⟨[]⟩, none, [(0, "1".toList)]) ∧
    ("ERR x".toList : Str) ≠ [] := by
  constructor
  · rfl
  · decide

/-- C2 (amended): after a successful transport round trip, among the
positions actually distributed (the first min(len dst, len res)), the first
position holding a Failure reply determines the returned error: a typed
Error carrying that message with PipelineIndex equal to that position;
and, when every unmarshal succeeds, every other distributed non-failed
position with a non-nil destination and a non-nil raw result is still
unmarshaled into its destination. Failures at positions at or beyond
len(dst) are silently discarded and produce no typed Error. -/
theorem exec_first_error_reported (um : Str → Except Str Unit)
    (marshal : List (List GoVal) → Option Str)
    (decR : Str → Option upstashdis.Result) (decRs : Str → Option (List upstashdis.Result))
    (tr : Bool → List (List GoVal) → Except Str upstashdis.HttpResp)
    (r r' : upstashdis.Request) (dst : List upstashdis.Dst) (res : List upstashdis.Result)
    (i : Nat)
    (hum : ∀ s, um s = .ok ())
    (hexec : upstashdis.Request.exec marshal decR decRs tr r = (r', .ok res))
    (hdlen : dst.length ≤ res.length)
    (hi : i < dst.length)
    (hfail : (res.getD i ⟨[], none⟩).error ≠ [])
    (hfirst : ∀ j, j < i → (res.getD j ⟨[], none⟩).error = []) :
    (upstashdis.Request.Exec um marshal decR decRs tr r dst).2.1 =
      some (.red (upstashdis.newError (res.getD i ⟨[], none⟩).error i)) ∧
    (∀ j p, j < dst.length → j ≠ i →
      (res.getD j ⟨[], none⟩).error = [] →
      dst.getD j .nil = .ptr →
      (res.getD j ⟨[], none⟩).result = some p →
      (j, p) ∈ (upstashdis.Request.Exec um marshal decR decRs tr r dst).2.2) := by
  have hEx : upstashdis.Request.Exec um marshal decR decRs tr r dst =
      (r', upstashdis.execDistribute um res dst) := by
    unfold upstashdis.Request.Exec
    rw [hexec]
  have hlen : (res.zip dst).length = dst.length := by
    rw [List.length_zip]
    omega
  have hz : ∀ j, j < dst.length →
      (res.zip dst).getD j (⟨[], none⟩, .nil) = (res.getD j ⟨[], none⟩, dst.getD j .nil) :=
    fun j hj => zip_getD _ _ res dst j (by omega) hj
  have hk : i < (res.zip dst).length := by
    rw [hlen]
    exact hi
  have hfailz : ((res.zip dst).getD i (⟨[], none⟩, .nil)).1.error ≠ [] := by
    rw [hz i hi]
    exact hfail
  have hfirstz : ∀ j, j < i → ((res.zip dst).getD j (⟨[], none⟩, .nil)).1.error = [] := by
    intro j hj
    rw [hz j (by omega)]
    exact hfirst j hj
  have main := distLoop_first_error um hum (res.zip dst) 0 i hk hfailz hfirstz
  rcases hdl2 : upstashdis.distLoop um (res.zip dst) 0 none with ⟨out, ws⟩
  have h1 := main.1
  rw [hdl2] at h1
  dsimp only at h1
  rw [hz i hi] at h1
  have hzero : (((0 : Nat) : Int) + (i : Int)) = (i : Int) := by
    push_cast
    ring
  rw [hzero] at h1
  have hnd : ¬ dst.length > res.length := not_lt.mpr hdlen
  constructor
  · rw [hEx]
    dsimp only
    unfold upstashdis.execDistribute
    rw [if_neg hnd, hdl2, h1]
    rfl
  · intro j p hj hji he hdp hp
    rw [hEx]
    dsimp only
    unfold upstashdis.execDistribute
    rw [if_neg hnd, hdl2, h1]
    dsimp only
    have hm := main.2 j p (by rw [hlen]; exact hj) hji
      (by rw [hz j hj]; exact he) (by rw [hz j hj]; exact hdp) (by rw [hz j hj]; exact hp)
    rw [hdl2] at hm
    dsimp only at hm
    simpa using hm

/-- Concrete instances for the C2 witness: a three-reply batch whose middle
reply fails, three non-nil destinations, an always-succeeding unmarshal. -/
def umW2 : Str → Except Str Unit := fun _ => .ok ()

def resW2 : List upstashdis.Result :=
  [⟨[], some "1".toList⟩, ⟨"ERR x".toList, none⟩, ⟨[], some "3".toList⟩]

def dstW2 : List upstashdis.Dst := [.ptr, .ptr, .ptr]

def decRsW2 : Str → Option (List upstashdis.Result) := fun _ => some resW2

def trW2 : Bool → List (List GoVal) → Except Str upstashdis.HttpResp :=
  fun _ _ => .ok ⟨200, [], "b".toList⟩

def reqW2 : upstashdis.Request := ⟨[[GoVal.str "A".toList], [GoVal.str "B".toList]]⟩

/-- C2 witness: the amended first-error theorem applied to the concrete
three-reply batch with a Failure at position 1. -/
theorem exec_first_error_reported_witness :
    (∀ s, umW2 s = .ok ()) ∧
    upstashdis.Request.exec (fun _ => none) (fun _ => none) decRsW2 trW2 reqW2 =
      (⟨[]⟩, .ok resW2) ∧
    dstW2.length ≤ resW2.length ∧
    1 < dstW2.length ∧
    (resW2.getD 1 ⟨[], none⟩).error ≠ [] ∧
    (∀ j, j < 1 → (resW2.getD j ⟨[], none⟩).error = []) ∧
    ((upstashdis.Request.Exec umW2 (fun _ => none) (fun _ => none) decRsW2 trW2 reqW2
        dstW2).2.1 =
      some (.red (upstashdis.newError (resW2.getD 1 ⟨[], none⟩).error 1)) ∧
    (∀ j p, j < dstW2.length → j ≠ 1 →
      (resW2.getD j ⟨[], none⟩).error = [] →
      dstW2.getD j .nil = .ptr →
      (resW2.getD j ⟨[], none⟩).result = some p →
      (j, p) ∈ (upstashdis.Request.Exec umW2 (fun _ => none) (fun _ => none) decRsW2 trW2
        reqW2 dstW2).2.2)) :=
  ⟨fun _ => rfl, rfl, by decide, by decide, by decide,
    fun j hj => by
      have hj0 : j = 0 := by omega
      subst hj0
      decide,
    exec_first_error_reported umW2 (fun _ => none) (fun _ => none) decRsW2 trW2 reqW2
      ⟨[]⟩ dstW2 resW2 1 (fun _ => rfl) rfl (by decide) (by decide) (by decide)
      (fun j hj => by
        have hj0 : j = 0 := by omega
        subst hj0
        decide)⟩

/-- C3: after a successful round trip, supplying more destinations than
replies fails with the too-many-destinations error and unmarshals into no
destination; supplying at most as many destinations as replies yields
exactly the outcome of distributing the first len(dst) replies — the
trailing replies are silently discarded and contribute no error — and
every unmarshaled position lies below len(dst). -/
theorem exec_destination_count (um : Str → Except Str Unit)
    (marshal : List (List GoVal) → Option Str)
    (decR : Str → Option upstashdis.Result) (decRs : Str → Option (List upstashdis.Result))
    (tr : Bool → List (List GoVal) → Except Str upstashdis.HttpResp)
    (r r' : upstashdis.Request) (dst : List upstashdis.Dst) (res : List upstashdis.Result)
    (hexec : upstashdis.Request.exec marshal decR decRs tr r = (r', .ok res)) :
    (dst.length > res.length →
      upstashdis.Request.Exec um marshal decR decRs tr r dst = (r', some .tooMany, [])) ∧
    (dst.length ≤ res.length →
      upstashdis.Request.Exec um marshal decR decRs tr r dst =
        (r', upstashdis.execDistribute um (res.take dst.length) dst)) ∧
    (∀ j p, (j, p) ∈ (upstashdis.Request.Exec um marshal decR decRs tr r dst).2.2 →
      j < dst.length) := by
  have hEx : upstashdis.Request.Exec um marshal decR decRs tr r dst =
      (r', upstashdis.execDistribute um res dst) := by
    unfold upstashdis.Request.Exec
    rw [hexec]
  refine ⟨?_, ?_, ?_⟩
  · intro hd
    rw [hEx]
    unfold upstashdis.execDistribute
    rw [if_pos hd]
  · intro hle
    rw [hEx]
    have h1 : ¬ dst.length > res.length := not_lt.mpr hle
    have h2 : ¬ dst.length > (res.take dst.length).length := by
      rw [List.length_take]
      omega
    unfold upstashdis.execDistribute
    rw [if_neg h1, if_neg h2, ← zip_take_length]
  · intro j p h
    rw [hEx] at h
    dsimp only at h
    unfold upstashdis.execDistribute at h
    by_cases hd : dst.length > res.length
    · rw [if_pos hd] at h
      exact absurd h (List.not_mem_nil _)
    · rw [if_neg hd] at h
      rcases hdl : upstashdis.distLoop um (res.zip dst) 0 none with ⟨out, ws⟩
      rw [hdl] at h
      cases out with
      | error e =>
        dsimp only at h
        have hb := distLoop_writes_lt um (res.zip dst) 0 none j p (by rw [hdl]; exact h)
        rw [List.length_zip] at hb
        omega
      | ok fe =>
        dsimp only at h
        have hb := distLoop_writes_lt um (res.zip dst) 0 none j p (by rw [hdl]; exact h)
        rw [List.length_zip] at hb
        omega

/-- C3 witness: a round trip producing two replies, exercised through the
destination-count contract. -/
theorem exec_destination_count_witness :
    upstashdis.Request.exec (fun _ => none) (fun _ => none)
        (fun _ => some [⟨[], some "1".toList⟩, ⟨[], some "2".toList⟩])
        (fun _ _ => .ok ⟨200, [], "b".toList⟩)
        ⟨[[GoVal.str "A".toList], [GoVal.str "B".toList]]⟩ =
      (⟨[]⟩, .ok [⟨[], some "1".toList⟩, ⟨[], some "2".toList⟩]) ∧
    ((([] : List upstashdis.Dst).length > 2 →
      upstashdis.Request.Exec (fun _ => .ok ()) (fun _ => none) (fun _ => none)
        (fun _ => some [⟨[], some "1".toList⟩, ⟨[], some "2".toList⟩])
        (fun _ _ => .ok ⟨200, [], "b".toList⟩)
        ⟨[[GoVal.str "A".toList], [GoVal.str "B".toList]]⟩ [] =
        (⟨[]⟩, some .tooMany, [])) ∧
    (([] : List upstashdis.Dst).length ≤ 2 →
      upstashdis.Request.Exec (fun _ => .ok ()) (fun _ => none) (fun _ => none)
        (fun _ => some [⟨[], some "1".toList⟩, ⟨[], some "2".toList⟩])
        (fun _ _ => .ok ⟨200, [], "b".toList⟩)
        ⟨[[GoVal.str "A".toList], [GoVal.str "B".toList]]⟩ [] =
        (⟨[]⟩, upstashdis.execDistribute (fun _ => .ok ())
          ([⟨[], some "1".toList⟩, ⟨[], some "2".toList⟩].take
            ([] : List upstashdis.Dst).length) [])) ∧
    (∀ j p, (j, p) ∈ (upstashdis.Request.Exec (fun _ => .ok ()) (fun _ => none) (fun _ => none)
        (fun _ => some [⟨[], some "1".toList⟩, ⟨[], some "2".toList⟩])
        (fun _ _ => .ok ⟨200, [], "b".toList⟩)
        ⟨[[GoVal.str "A".toList], [GoVal.str "B".toList]]⟩ []).2.2 →
      j < ([] : List upstashdis.Dst).length)) := by
  refine ⟨rfl, ?_⟩
  have h := exec_destination_count (fun _ => .ok ()) (fun _ => none) (fun _ => none)
    (fun _ => some [⟨[], some "1".toList⟩, ⟨[], some "2".toList⟩])
    (fun _ _ => .ok ⟨200, [], "b".toList⟩)
    ⟨[[GoVal.str "A".toList], [GoVal.str "B".toList]]⟩ ⟨[]⟩ []
    [⟨[], some "1".toList⟩, ⟨[], some "2".toList⟩] rfl
  exact h

theorem splitOnChar_ne_nil (sep : Char) : ∀ (l : Str), splitOnChar sep l ≠ [] := by
  intro l
  induction l with
  | nil => simp [splitOnChar]
  | cons c rest ih =>
    rw [splitOnChar]
    by_cases hc : c = sep
    · rw [if_pos hc]
      simp
    · rw [if_neg hc]
      rcases h : splitOnChar sep rest with _ | ⟨h1, t⟩
      · simp
      · simp

theorem splitOnChar_append_sep (sep : Char) :
    ∀ (l : Str), splitOnChar sep (l ++ [sep]) = splitOnChar sep l ++ [[]] := by
  intro l
  induction l with
  | nil =>
    rw [List.nil_append]
    conv_lhs => rw [splitOnChar]
    rw [if_pos rfl]
    rfl
  | cons c rest ih =>
    rw [List.cons_append, splitOnChar]
    by_cases hc : c = sep
    · rw [if_pos hc, ih]
      conv_rhs => rw [splitOnChar]
      rw [if_pos hc]
      rfl
    · rw [if_neg hc, ih]
      conv_rhs => rw [splitOnChar]
      rw [if_neg hc]
      rcases h : splitOnChar sep rest with _ | ⟨h1, t⟩
      · exact absurd h (splitOnChar_ne_nil sep rest)
      · rfl

/-- C7 counterexample: the paths /echo/a and /echo/a/ select the same
branch of the dispatcher, yet resolve to different argument lists — the
catch-all branch splits the un-normalized path, so the trailing slash
contributes a trailing empty-string argument. -/
theorem trailing_slash_counterexample :
    restserver.branchOf "/echo/a".toList = restserver.branchOf "/echo/a/".toList ∧
    restserver.otherSegments "/echo/a".toList [] [] ≠
      restserver.otherSegments "/echo/a/".toList [] [] := by
  constructor
  · rfl
  · decide

/-- C7 (amended): for a request path that does not itself end in a slash,
the path and the path with one trailing slash appended select the same
branch; on the root and pipeline branches the dispatcher behaves
identically for both; on the catch-all branch both resolve the same
command name, but the trailing slash inserts one extra empty-string
argument after the path segments (before the body and query-string
contributions), so the argument lists differ. -/
theorem trailing_slash_dispatch {σ : Type} (decA : Str → Option (List GoVal))
    (decP : Str → Option (List (List GoVal)))
    (st : restserver.Server) (conn : restserver.Conn σ) (cs : σ) (path body query : Str)
    (hP : path.getLast? ≠ some '/') :
    restserver.branchOf (path ++ ['/']) = restserver.branchOf path ∧
    (restserver.branchOf path ≠ .other →
      restserver.serveCommand decA decP st conn cs (path ++ ['/']) body query =
        restserver.serveCommand decA decP st conn cs path body query) ∧
    (restserver.branchOf path = .other →
      restserver.otherSegments path body query =
        (splitOnChar '/' path).tail ++
          ((if body ≠ [] then [body] else []) ++
            (if query ≠ [] then restserver.queryArgs query else [])) ∧
      restserver.otherSegments (path ++ ['/']) body query =
        (splitOnChar '/' path).tail ++ ([] ::
          ((if body ≠ [] then [body] else []) ++
            (if query ≠ [] then restserver.queryArgs query else [])))) := by
  have htrim1 : trimSuffixSlash path = path := by
    unfold trimSuffixSlash
    rw [if_neg hP]
  have htrim2 : trimSuffixSlash (path ++ ['/']) = path := by
    unfold trimSuffixSlash
    rw [if_pos (List.getLast?_concat path), List.dropLast_concat]
  have hb : restserver.branchOf (path ++ ['/']) = restserver.branchOf path := by
    unfold restserver.branchOf
    rw [htrim1, htrim2]
  have hsplit : (splitOnChar '/' (path ++ ['/'])).tail =
      (splitOnChar '/' path).tail ++ [[]] := by
    rw [splitOnChar_append_sep]
    rcases h : splitOnChar '/' path with _ | ⟨h1, t⟩
    · exact absurd h (splitOnChar_ne_nil '/' path)
    · rfl
  refine ⟨hb, ?_, ?_⟩
  · intro hno
    unfold restserver.serveCommand
    rw [hb]
    rcases hbr : restserver.branchOf path with _ | _ | _
    · rfl
    · rfl
    · exact absurd hbr hno
  · intro _
    constructor
    · unfold restserver.otherSegments
      by_cases hbody : body ≠ [] <;> by_cases hquery : query ≠ [] <;>
        simp [hbody, hquery, List.append_assoc]
    · unfold restserver.otherSegments
      rw [hsplit]
      by_cases hbody : body ≠ [] <;> by_cases hquery : query ≠ [] <;>
        simp [hbody, hquery, List.append_assoc]

/-- C7 witness: the amended trailing-slash theorem applied to the path
/echo/a with a body and a query string. -/
theorem trailing_slash_dispatch_witness :
    ("/echo/a".toList : Str).getLast? ≠ some '/' ∧
    (restserver.branchOf ("/echo/a".toList ++ ['/']) = restserver.branchOf "/echo/a".toList ∧
    (restserver.branchOf "/echo/a".toList ≠ .other →
      restserver.serveCommand (fun _ => none) (fun _ => none) ⟨"adm".toList, []⟩
          (restserver.Conn.mk (fun (s : Nat) _ _ => (s + 1, .ok (GoVal.str "OK".toList)))) 0
          ("/echo/a".toList ++ ['/']) "b".toList "k=v".toList =
        restserver.serveCommand (fun _ => none) (fun _ => none) ⟨"adm".toList, []⟩
          (restserver.Conn.mk (fun (s : Nat) _ _ => (s + 1, .ok (GoVal.str "OK".toList)))) 0
          "/echo/a".toList "b".toList "k=v".toList) ∧
    (restserver.branchOf "/echo/a".toList = .other →
      restserver.otherSegments "/echo/a".toList "b".toList "k=v".toList =
        (splitOnChar '/' "/echo/a".toList).tail ++
          ((if ("b".toList : Str) ≠ [] then ["b".toList] else []) ++
            (if ("k=v".toList : Str) ≠ [] then restserver.queryArgs "k=v".toList else [])) ∧
      restserver.otherSegments ("/echo/a".toList ++ ['/']) "b".toList "k=v".toList =
        (splitOnChar '/' "/echo/a".toList).tail ++ ([] ::
          ((if ("b".toList : Str) ≠ [] then ["b".toList] else []) ++
            (if ("k=v".toList : Str) ≠ [] then restserver.queryArgs "k=v".toList else []))))) :=
  ⟨by decide,
    trailing_slash_dispatch (fun _ => none) (fun _ => none) ⟨"adm".toList, []⟩
      (restserver.Conn.mk (fun (s : Nat) _ _ => (s + 1, .ok (GoVal.str "OK".toList)))) 0
      "/echo/a".toList "b".toList "k=v".toList (by decide)⟩

theorem pipelineRun_cons_nil {σ : Type} (conn : restserver.Conn σ) (st : restserver.Server)
    (cs : σ) (rest : List (List GoVal)) :
    restserver.pipelineRun conn st cs ([] :: rest) =
      match restserver.pipelineRun conn st cs rest with
      | none => none
      | some (st', cs', envs) =>
        some (st', cs', .err "ERR empty pipeline command".toList :: envs) := rfl

theorem pipelineRun_cons_cmd {σ : Type} (conn : restserver.Conn σ) (st : restserver.Server)
    (cs : σ) (c0 : GoVal) (cargs : List GoVal) (rest : List (List GoVal)) :
    restserver.pipelineRun conn st cs ((c0 :: cargs) :: rest) =
      match restserver.execCmd st conn cs (GoVal.sprint c0) cargs with
      | none => none
      | some (st1, cs1, env, _code) =>
        match restserver.pipelineRun conn st1 cs1 rest with
        | none => none
        | some (st', cs', envs) => some (st', cs', env :: envs) := rfl

theorem pipelineRun_nil {σ : Type} (conn : restserver.Conn σ) (st : restserver.Server)
    (cs : σ) : restserver.pipelineRun conn st cs [] = some (st, cs, []) := rfl

theorem pipelineRun_append {σ : Type} (conn : restserver.Conn σ) :
    ∀ (l1 l2 : List (List GoVal)) (st : restserver.Server) (cs : σ),
      restserver.pipelineRun conn st cs (l1 ++ l2) =
        match restserver.pipelineRun conn st cs l1 with
        | none => none
        | some (st1, cs1, e1) =>
          match restserver.pipelineRun conn st1 cs1 l2 with
          | none => none
          | some (st2, cs2, e2) => some (st2, cs2, e1 ++ e2) := by
  intro l1
  induction l1 with
  | nil =>
    intro l2 st cs
    rw [List.nil_append, pipelineRun_nil]
    rcases h2 : restserver.pipelineRun conn st cs l2 with _ | ⟨st2, cs2, e2⟩
    · simp [h2]
    · simp [h2]
  | cons c rest ih =>
    intro l2 st cs
    rw [List.cons_append]
    cases c with
    | nil =>
      rw [pipelineRun_cons_nil, pipelineRun_cons_nil, ih l2 st cs]
      rcases h1 : restserver.pipelineRun conn st cs rest with _ | ⟨st1, cs1, e1⟩
      · simp [h1]
      · rcases h2 : restserver.pipelineRun conn st1 cs1 l2 with _ | ⟨st2, cs2, e2⟩
        · simp [h1, h2]
        · simp [h1, h2]
    | cons c0 cargs =>
      rw [pipelineRun_cons_cmd, pipelineRun_cons_cmd]
      rcases hx : restserver.execCmd st conn cs (GoVal.sprint c0) cargs with _ | ⟨st1, cs1, env, code⟩
      · simp
      · dsimp only
        rw [ih l2 st1 cs1]
        rcases h1 : restserver.pipelineRun conn st1 cs1 rest with _ | ⟨sta, csa, e1⟩
        · simp [h1]
        · rcases h2 : restserver.pipelineRun conn sta csa l2 with _ | ⟨st2, cs2, e2⟩
          · simp [h1, h2]
          · simp [h1, h2]

theorem pipelineRun_length {σ : Type} (conn : restserver.Conn σ) :
    ∀ (l : List (List GoVal)) (st : restserver.Server) (cs : σ) (st' : restserver.Server)
      (cs' : σ) (envs : List restserver.Envelope),
      restserver.pipelineRun conn st cs l = some (st', cs', envs) → envs.length = l.length := by
  intro l
  induction l with
  | nil =>
    intro st cs st' cs' envs h
    cases h
    rfl
  | cons c rest ih =>
    intro st cs st' cs' envs h
    cases c with
    | nil =>
      rw [pipelineRun_cons_nil] at h
      rcases h1 : restserver.pipelineRun conn st cs rest with _ | ⟨st1, cs1, e1⟩
      · rw [h1] at h
        cases h
      · rw [h1] at h
        dsimp only at h
        cases h
        have hlen := ih _ _ _ _ _ h1
        simp [hlen]
    | cons c0 cargs =>
      rw [pipelineRun_cons_cmd] at h
      rcases hx : restserver.execCmd st conn cs (GoVal.sprint c0) cargs with _ | ⟨st1, cs1, env, code⟩
      · rw [hx] at h
        cases h
      · rw [hx] at h
        dsimp only at h
        rcases h1 : restserver.pipelineRun conn st1 cs1 rest with _ | ⟨sta, csa, e1⟩
        · rw [h1] at h
          cases h
        · rw [h1] at h
          dsimp only at h
          cases h
          have hlen := ih _ _ _ _ _ h1
          simp [hlen]

/-- C1: for a request on the pipeline branch whose body decodes as a
non-empty array of N inner command arrays and whose execution reaches no
panic, the dispatcher replies HTTP 200 with exactly N positionally aligned
envelopes: for every position i, the first i envelopes are exactly the run
of the first i inner commands and the i-th envelope is the run of inner
command i alone from the intermediate state — inner commands execute
independently and in order, a failure at one position never removes or
reorders the entries at other positions, and an empty inner array yields
the per-item empty-pipeline-command error envelope at its position. -/
theorem pipeline_positional {σ : Type} (decA : Str → Option (List GoVal))
    (decP : Str → Option (List (List GoVal)))
    (st : restserver.Server) (conn : restserver.Conn σ) (cs : σ) (path body query : Str)
    (cmds : List (List GoVal)) (st' : restserver.Server) (cs' : σ)
    (envs : List restserver.Envelope)
    (hpath : restserver.branchOf path = .pipe)
    (hdec : decP body = some cmds)
    (hne : cmds ≠ [])
    (hrun : restserver.pipelineRun conn st cs cmds = some (st', cs', envs)) :
    restserver.serveCommand decA decP st conn cs path body query =
      some (st', cs', 200, .batch envs) ∧
    envs.length = cmds.length ∧
    (∀ i, i < cmds.length → ∃ sti csi stj csj,
      restserver.pipelineRun conn st cs (cmds.take i) = some (sti, csi, envs.take i) ∧
      restserver.pipelineRun conn sti csi [cmds.getD i []] =
        some (stj, csj, [envs.getD i (.err [])])) ∧
    (∀ i, i < cmds.length → cmds.getD i [] = [] →
      envs.getD i (.err []) = .err "ERR empty pipeline command".toList) := by
  have hserve : restserver.serveCommand decA decP st conn cs path body query =
      some (st', cs', 200, .batch envs) := by
    unfold restserver.serveCommand
    rw [hpath]
    dsimp only
    rw [hdec]
    rcases cmds with _ | ⟨c, crest⟩
    · exact absurd rfl hne
    · dsimp only
      rw [hrun]
  have hlen : envs.length = cmds.length := pipelineRun_length conn cmds st cs st' cs' envs hrun
  have hpos : ∀ i, i < cmds.length → ∃ sti csi stj csj,
      restserver.pipelineRun conn st cs (cmds.take i) = some (sti, csi, envs.take i) ∧
      restserver.pipelineRun conn sti csi [cmds.getD i []] =
        some (stj, csj, [envs.getD i (.err [])]) := by
    intro i hi
    have hsplit : cmds.take i ++ cmds.getD i [] :: cmds.drop (i + 1) = cmds := by
      conv_rhs => rw [← List.take_append_drop i cmds]
      rw [List.drop_eq_getElem_cons hi, List.getD_eq_getElem cmds [] hi]
    have happ := pipelineRun_append conn (cmds.take i)
      (cmds.getD i [] :: cmds.drop (i + 1)) st cs
    rw [hsplit, hrun] at happ
    rcases h1 : restserver.pipelineRun conn st cs (cmds.take i) with _ | ⟨sti, csi, e1⟩
    · rw [h1] at happ
      simp at happ
    · rw [h1] at happ
      dsimp only at happ
      rcases h2 : restserver.pipelineRun conn sti csi (cmds.getD i [] :: cmds.drop (i + 1))
        with _ | ⟨stb, csb, e2⟩
      · rw [h2] at happ
        simp at happ
      · rw [h2] at happ
        dsimp only at happ
        rw [Option.some_inj] at happ
        have h5 : envs = e1 ++ e2 := congrArg (fun t => t.2.2) happ
        have hlen1 : e1.length = i := by
          have := pipelineRun_length conn (cmds.take i) st cs sti csi e1 h1
          rw [List.length_take] at this
          omega
        have htake : envs.take i = e1 := by
          rw [h5, List.take_left' hlen1]
        have hgetd : envs.getD i (.err []) = e2.getD 0 (.err []) := by
          rw [h5, List.getD_append_right e1 e2 _ i (le_of_eq hlen1)]
          rw [hlen1]
          simp
        rcases hcg : cmds.getD i [] with _ | ⟨c0, cargs⟩
        · rw [hcg, pipelineRun_cons_nil] at h2
          rcases h6 : restserver.pipelineRun conn sti csi (cmds.drop (i + 1))
            with _ | ⟨stc, csc, e3⟩
          · rw [h6] at h2
            simp at h2
          · rw [h6] at h2
            dsimp only at h2
            rw [Option.some_inj] at h2
            have h9 : e2 = .err "ERR empty pipeline command".toList :: e3 :=
              (congrArg (fun t => t.2.2) h2).symm
            refine ⟨sti, csi, sti, csi, by rw [htake], ?_⟩
            have hone : restserver.pipelineRun conn sti csi [([] : List GoVal)] =
                some (sti, csi, [.err "ERR empty pipeline command".toList]) := by
              rw [pipelineRun_cons_nil, pipelineRun_nil]
            rw [hone, hgetd]
            simp [h9]
        · rw [hcg, pipelineRun_cons_cmd] at h2
          rcases hx : restserver.execCmd sti conn csi (GoVal.sprint c0) cargs
            with _ | ⟨stj, csj, env, code⟩
          · rw [hx] at h2
            simp at h2
          · rw [hx] at h2
            dsimp only at h2
            rcases h6 : restserver.pipelineRun conn stj csj (cmds.drop (i + 1))
              with _ | ⟨stc, csc, e3⟩
            · rw [h6] at h2
              simp at h2
            · rw [h6] at h2
              dsimp only at h2
              rw [Option.some_inj] at h2
              have h9 : e2 = env :: e3 := (congrArg (fun t => t.2.2) h2).symm
              refine ⟨sti, csi, stj, csj, by rw [htake], ?_⟩
              have hone : restserver.pipelineRun conn sti csi [c0 :: cargs] =
                  some (stj, csj, [env]) := by
                rw [pipelineRun_cons_cmd, hx]
                dsimp only
                rw [pipelineRun_nil]
              rw [hone, hgetd]
              simp [h9]
  refine ⟨hserve, hlen, hpos, ?_⟩
  intro i hi hcg
  obtain ⟨sti, csi, stj, csj, h1, h2⟩ := hpos i hi
  rw [hcg] at h2
  have hone : restserver.pipelineRun conn sti csi [([] : List GoVal)] =
      some (sti, csi, [.err "ERR empty pipeline command".toList]) := by
    rw [pipelineRun_cons_nil, pipelineRun_nil]
  rw [hone, Option.some_inj] at h2
  have h5 : [restserver.Envelope.err "ERR empty pipeline command".toList] =
      [envs.getD i (.err [])] := congrArg (fun t => t.2.2) h2
  injection h5 with h6 h7
  exact h6.symm

/-- Concrete instances for the C1 witness: a backing connection that fails
the command BAD and answers PONG otherwise, and a three-entry pipeline
whose middle inner array is empty. -/
def connW1 : restserver.Conn Nat :=
  ⟨fun s cmd _ =>
    if cmd = "BAD".toList then (s + 1, .error "ERR boom".toList)
    else (s + 1, .ok (GoVal.str "PONG".toList))⟩

def cmdsW1 : List (List GoVal) := [[GoVal.str "PING".toList], [], [GoVal.str "BAD".toList]]

def decPW1 : Str → Option (List (List GoVal)) := fun _ => some cmdsW1

def envsW1 : List restserver.Envelope :=
  [.ok (GoVal.str "PONG".toList), .err "ERR empty pipeline command".toList,
    .err "ERR boom".toList]

/-- C1 witness: the positional pipeline theorem applied to a concrete
three-command pipeline containing an empty inner array and a failing
command. -/
theorem pipeline_positional_witness :
    restserver.branchOf "/pipeline".toList = .pipe ∧
    decPW1 "x".toList = some cmdsW1 ∧
    cmdsW1 ≠ [] ∧
    restserver.pipelineRun connW1 ⟨"adm".toList, []⟩ 0 cmdsW1 =
      some (⟨"adm".toList, []⟩, 2, envsW1) ∧
    (restserver.serveCommand (fun _ => none) decPW1 ⟨"adm".toList, []⟩ connW1 0
        "/pipeline".toList "x".toList [] =
      some (⟨"adm".toList, []⟩, 2, 200, .batch envsW1) ∧
    envsW1.length = cmdsW1.length ∧
    (∀ i, i < cmdsW1.length → ∃ sti csi stj csj,
      restserver.pipelineRun connW1 ⟨"adm".toList, []⟩ 0 (cmdsW1.take i) =
        some (sti, csi, envsW1.take i) ∧
      restserver.pipelineRun connW1 sti csi [cmdsW1.getD i []] =
        some (stj, csj, [envsW1.getD i (.err [])])) ∧
    (∀ i, i < cmdsW1.length → cmdsW1.getD i [] = [] →
      envsW1.getD i (.err []) = .err "ERR empty pipeline command".toList)) :=
  ⟨rfl, rfl, by decide, by decide,
    pipeline_positional (fun _ => none) decPW1 ⟨"adm".toList, []⟩ connW1 0
      "/pipeline".toList "x".toList [] cmdsW1 ⟨"adm".toList, []⟩ 2 envsW1
      rfl rfl (by decide) (by decide)⟩

/-- C9 counterexample: an ExecOne call with an empty command name on a
request holding one queued command returns the empty-command error from
Send before reaching the transmit step, and the queue is left untouched
(still non-empty), so the claim fails for ExecOne as stated. -/
theorem execOne_empty_command_counterexample :
    upstashdis.Request.ExecOne (fun _ => .ok ()) (fun _ => none) (fun _ => none)
        (fun _ => none) (fun _ _ => .ok ⟨200, [], []⟩)
        ⟨[[GoVal.str "PING".toList]]⟩ .nil [] [] =
      some (⟨[[GoVal.str "PING".toList]]⟩, some .emptyCommand) ∧
    ([[GoVal.str "PING".toList]] : List (List GoVal)) ≠ [] := by
  constructor
  · rfl
  · decide

/-- C9 (amended): after every call to Exec or ExecRaw that finds a
non-empty queue, and after every ExecOne whose command name is non-empty,
the command queue of the Request is empty — the queue is consumed before
the JSON-marshal error check and before the transport call, so it is
consumed even when either of those fails. (ExecOne with an empty command
name fails inside Send and leaves the queue untouched.) -/
theorem queue_consumed (um : Str → Except Str Unit)
    (marshal : List (List GoVal) → Option Str)
    (decR : Str → Option upstashdis.Result) (decRs : Str → Option (List upstashdis.Result))
    (tr : Bool → List (List GoVal) → Except Str upstashdis.HttpResp)
    (r : upstashdis.Request) (dst : List upstashdis.Dst) (dst1 : upstashdis.Dst)
    (cmd : Str) (args : List GoVal)
    (hq : r.req ≠ []) (hcmd : cmd ≠ []) :
    (upstashdis.Request.Exec um marshal decR decRs tr r dst).1.req = [] ∧
    (upstashdis.Request.ExecRaw marshal decR decRs tr r).1.req = [] ∧
    (∀ r2 eo, upstashdis.Request.ExecOne um marshal decR decRs tr r dst1 cmd args =
      some (r2, eo) → r2.req = []) := by
  refine ⟨?_, ?_, ?_⟩
  · rw [Exec_fst_eq]
    exact exec_consumes_queue marshal decR decRs tr r hq
  · exact exec_consumes_queue marshal decR decRs tr r hq
  · intro r2 eo hout
    have hq1 : (⟨r.req ++ [GoVal.str cmd :: args.map (fun a => upstashdis.writeArg a true)]⟩ :
        upstashdis.Request).req ≠ [] := by simp
    have hcons := exec_consumes_queue marshal decR decRs tr
      ⟨r.req ++ [GoVal.str cmd :: args.map (fun a => upstashdis.writeArg a true)]⟩ hq1
    unfold upstashdis.Request.ExecOne upstashdis.Request.Send at hout
    rw [if_neg hcmd] at hout
    dsimp only at hout
    rcases hx : upstashdis.Request.exec marshal decR decRs tr
        ⟨r.req ++ [GoVal.str cmd :: args.map (fun a => upstashdis.writeArg a true)]⟩ with ⟨r', exc⟩
    rw [hx] at hcons hout
    cases exc with
    | error e =>
      dsimp only at hout
      cases hout
      exact hcons
    | ok res =>
      dsimp only at hout
      rcases hgl : res.getLast? with _ | last
      · rw [hgl] at hout
        cases hout
      · rw [hgl] at hout
        dsimp only at hout
        by_cases hf : last.error ≠ []
        · rw [if_pos hf] at hout
          cases hout
          exact hcons
        · rw [if_neg hf] at hout
          by_cases hdn : dst1 = upstashdis.Dst.nil
          · rw [if_pos hdn] at hout
            cases hout
            exact hcons
          · rw [if_neg hdn] at hout
            rcases hum : um (last.result.getD []) with e | u <;> rw [hum] at hout <;>
              dsimp only at hout <;> cases hout <;> exact hcons

/-- C9 witness: the amended consumption theorem applied to a request with
one queued command, a failing marshal step for Exec and a concrete
transport. -/
theorem queue_consumed_witness :
    ((⟨[[GoVal.str "PING".toList]]⟩ : upstashdis.Request).req ≠ []) ∧
    ("GET".toList : Str) ≠ [] ∧
    ((upstashdis.Request.Exec (fun _ => .ok ()) (fun _ => some "bad".toList) (fun _ => none)
        (fun _ => none) (fun _ _ => .error "down".toList)
        ⟨[[GoVal.str "PING".toList]]⟩ []).1.req = [] ∧
      (upstashdis.Request.ExecRaw (fun _ => some "bad".toList) (fun _ => none)
        (fun _ => none) (fun _ _ => .error "down".toList)
        ⟨[[GoVal.str "PING".toList]]⟩).1.req = [] ∧
      (∀ r2 eo, upstashdis.Request.ExecOne (fun _ => .ok ())
          (fun _ => some "bad".toList) (fun _ => none) (fun _ => none)
          (fun _ _ => .error "down".toList)
          ⟨[[GoVal.str "PING".toList]]⟩ .nil "GET".toList [] = some (r2, eo) →
        r2.req = [])) :=
  ⟨by decide, by decide,
    queue_consumed (fun _ => .ok ()) (fun _ => some "bad".toList) (fun _ => none)
      (fun _ => none) (fun _ _ => .error "down".toList)
      ⟨[[GoVal.str "PING".toList]]⟩ [] .nil "GET".toList []
      (by decide) (by decide)⟩
